import Mathlib

/-!
Verification of the autovideo binary-template patching engine against its
specification.  The Rust sources embedded here are
`autovideo-core/src/utility.rs` (identifier padding, byte-pattern
substitution, sentinel-float patching) and `src/lib.rs` (`process_videos`:
validation, grid-timing floats, plugin-buffer assembly).

Conventions of the embedding:
* Rust byte buffers (`[u8]`, `Vec<u8>`) are `List ℕ` with entries < 256
  (the claims never depend on the bound, so it is not carried around).
* Rust strings are byte lists as well; `elongate` is stated generically in
  the element type since the source only uses ASCII data.
* A Rust panic (index out of range, `windows(0)`, arithmetic underflow in
  a release build followed by an out-of-range slice) is modelled as
  `Option.none`; a Rust `Err` is `Except.error`.
* Rust `while` loops are modelled by structural recursion on an explicit
  fuel argument; every wrapper supplies fuel that provably exceeds the
  number of iterations the loop can perform, so the fuel-exhausted branch
  is unreachable there.
* `f32` values are modelled by their IEEE-754 binary32 bit patterns
  (naturals < 2^32); arithmetic decodes to exact dyadic rationals,
  operates exactly and rounds to nearest, ties to even.
-/

set_option maxRecDepth 100000

instance {ε α : Type} [DecidableEq ε] [DecidableEq α] : DecidableEq (Except ε α) := fun x y =>
  match x, y with
  | Except.error a, Except.error b =>
    if h : a = b then isTrue (congrArg Except.error h)
    else isFalse (fun hc => h (Except.error.inj hc))
  | Except.error _, Except.ok _ => isFalse Except.noConfusion
  | Except.ok _, Except.error _ => isFalse Except.noConfusion
  | Except.ok a, Except.ok b =>
    if h : a = b then isTrue (congrArg Except.ok h)
    else isFalse (fun hc => h (Except.ok.inj hc))

/-! ### Identifier padding codec (`utility.rs::elongate`) -/

/-- The `while result.len() < length` loop of `elongate`: repeatedly
insert `c` at the front (when `leading`) or push it at the back.  Each
iteration grows `result` by one element, so `length` iterations always
suffice; the wrapper passes `length` as fuel. -/
def elongateGo {α : Type} (c : α) (length : ℕ) (leading : Bool) : ℕ → List α → List α
  | 0, result => result
  | fuel + 1, result =>
    if result.length < length then
      elongateGo c length leading fuel (if leading then c :: result else result ++ [c])
    else
      result

/-- `utility.rs::elongate`: fails when the input is longer than the target
length, otherwise pads with `character` on the chosen side until the target
length is reached. -/
def elongate {α : Type} (string : List α) (character : α) (length : ℕ) (leading : Bool) :
    Except String (List α) :=
  if string.length > length then
    Except.error "is too long"
  else
    Except.ok (elongateGo character length leading length string)

theorem elongateGo_leading {α : Type} (c : α) (L : ℕ) (fuel : ℕ) (r : List α)
    (hf : L - r.length ≤ fuel) :
    elongateGo c L true fuel r = List.replicate (L - r.length) c ++ r := by
  induction fuel generalizing r with
  | zero =>
    have : L - r.length = 0 := by omega
    simp [elongateGo, this]
  | succ n ih =>
    rw [elongateGo]
    by_cases h : r.length < L
    · simp only [h, if_pos, if_true]
      rw [ih (c :: r) (by simp; omega)]
      have h1 : L - r.length = (L - (c :: r).length) + 1 := by
        simp only [List.length_cons]; omega
      rw [h1, List.replicate_succ']
      simp
    · have : L - r.length = 0 := by omega
      simp [h, this]

theorem elongateGo_trailing {α : Type} (c : α) (L : ℕ) (fuel : ℕ) (r : List α)
    (hf : L - r.length ≤ fuel) :
    elongateGo c L false fuel r = r ++ List.replicate (L - r.length) c := by
  induction fuel generalizing r with
  | zero =>
    have : L - r.length = 0 := by omega
    simp [elongateGo, this]
  | succ n ih =>
    rw [elongateGo]
    by_cases h : r.length < L
    · simp only [h, if_pos, if_false, Bool.false_eq_true]
      rw [ih (r ++ [c]) (by simp; omega)]
      have h1 : L - r.length = (L - (r ++ [c]).length) + 1 := by
        simp only [List.length_append, List.length_cons, List.length_nil]; omega
      rw [h1, List.replicate_succ]
      simp
    · have : L - r.length = 0 := by omega
      simp [h, this]

theorem elongate_eq_ok {α : Type} (s : List α) (c : α) (L : ℕ) (b : Bool)
    (h : s.length ≤ L) :
    elongate s c L b =
      Except.ok (if b then List.replicate (L - s.length) c ++ s
                 else s ++ List.replicate (L - s.length) c) := by
  unfold elongate
  rw [if_neg (by omega : ¬ s.length > L)]
  cases b
  · rw [elongateGo_trailing c L L s (by omega)]
    simp
  · rw [elongateGo_leading c L L s (by omega)]
    simp

theorem elongate_length {α : Type} (s : List α) (c : α) (L : ℕ) (b : Bool) (r : List α)
    (h : elongate s c L b = Except.ok r) : r.length = L ∧ s.length ≤ L := by
  by_cases hl : s.length > L
  · simp [elongate, hl] at h
  · rw [elongate_eq_ok s c L b (by omega)] at h
    simp only [Except.ok.injEq] at h
    subst h
    cases b <;> simp <;> omega

theorem elongate_ok_iff {α : Type} (s : List α) (c : α) (L : ℕ) (b : Bool) :
    (∃ r, elongate s c L b = Except.ok r) ↔ s.length ≤ L := by
  constructor
  · rintro ⟨r, hr⟩
    by_contra hng
    unfold elongate at hr
    rw [if_pos (by omega : s.length > L)] at hr
    exact Except.noConfusion hr
  · intro h
    exact ⟨_, elongate_eq_ok s c L b h⟩

/-- C4: `elongate(name, fillChar, targetLength, leading)` errors exactly when
`len(name) > targetLength`; otherwise it returns a string of length exactly
`targetLength` equal to `targetLength - len(name)` copies of `fillChar`
prepended (leading) or appended (trailing) to `name`, and dropping those
copies from the stated side recovers `name`. -/
theorem C4_elongate_pad_roundtrip {α : Type} (name : List α) (c : α) (L : ℕ) (leading : Bool) :
    ((∃ e, elongate name c L leading = Except.error e) ↔ name.length > L) ∧
    (name.length ≤ L →
      ∃ r, elongate name c L leading = Except.ok r ∧
        r.length = L ∧
        (leading = true → r = List.replicate (L - name.length) c ++ name ∧
          r.drop (L - name.length) = name) ∧
        (leading = false → r = name ++ List.replicate (L - name.length) c ∧
          r.take name.length = name)) := by
  constructor
  · constructor
    · rintro ⟨e, he⟩
      by_contra hng
      rw [elongate_eq_ok name c L leading (by omega)] at he
      exact Except.noConfusion he
    · intro h
      exact ⟨"is too long", by simp [elongate, h]⟩
  · intro h
    refine ⟨_, elongate_eq_ok name c L leading h, ?_, ?_, ?_⟩
    · cases leading <;> simp <;> omega
    · intro hb; subst hb
      refine ⟨by simp, ?_⟩
      simp only [if_pos, if_true]
      rw [List.drop_append_eq_append_drop]
      simp
    · intro hb; subst hb
      refine ⟨by simp, ?_⟩
      simp

/-- Witness for C4 at a concrete input: padding the 3-byte name `MOD` to
10 bytes with `X` (byte 88). -/
theorem C4_elongate_pad_roundtrip_witness :
    ([77, 79, 68] : List ℕ).length ≤ 10 ∧
    ∃ r, elongate [77, 79, 68] 88 10 true = Except.ok r ∧
      r.length = 10 ∧
      (true = true → r = List.replicate 7 88 ++ [77, 79, 68] ∧ r.drop 7 = [77, 79, 68]) ∧
      (true = false → r = [77, 79, 68] ++ List.replicate 7 88 ∧ r.take 3 = [77, 79, 68]) := by
  refine ⟨by decide, ?_⟩
  have h := (C4_elongate_pad_roundtrip ([77, 79, 68] : List ℕ) 88 10 true).2 (by decide)
  simpa using h

/-! ### Byte-pattern substitution engine (`utility.rs`) -/

/-- `data[..].windows(pat.len()).position(|w| w == pat)`: index of the first
occurrence of `pat` in `data` (windows shorter than `pat` never match). -/
def posFind (pat : List ℕ) : List ℕ → Option ℕ
  | [] => if pat.length = 0 then some 0 else none
  | a :: rest =>
    if List.take pat.length (a :: rest) = pat then some 0
    else (posFind pat rest).map (· + 1)

/-- `pat` occurs in `data` starting at byte index `i`. -/
def occursAt (pat data : List ℕ) (i : ℕ) : Prop :=
  (data.drop i).take pat.length = pat

instance (pat data : List ℕ) (i : ℕ) : Decidable (occursAt pat data i) := by
  unfold occursAt; infer_instance

/-- `data[i..i + rep.len()].copy_from_slice(rep)`; every call site
establishes `i + rep.length ≤ data.length`. -/
def spliceAt (data : List ℕ) (i : ℕ) (rep : List ℕ) : List ℕ :=
  data.take i ++ rep ++ data.drop (i + rep.length)

/-- The scan loop of `count_strings_in_bytes`: find next match from
`position`, bump the counter, resume right after the consumed match.
The resume position grows by `pat.length ≥ 1` each iteration, so
`data.length + 1` fuel always suffices. -/
def countGo (pat data : List ℕ) : ℕ → ℕ → ℕ → ℕ
  | 0, _, counter => counter
  | fuel + 1, position, counter =>
    match posFind pat (data.drop position) with
    | none => counter
    | some s => countGo pat data fuel (position + s + pat.length) (counter + 1)

/-- `utility.rs::count_strings_in_bytes`; `none` models the
`windows(0)` panic on an empty search string. -/
def count_strings_in_bytes (data : List ℕ) (search_string : List ℕ) : Option ℕ :=
  if search_string.length = 0 then none
  else some (countGo search_string data (data.length + 1) 0 0)

/-- The scan-and-overwrite loop of `replace_all_strings_in_bytes`.  `none`
models a panic: `windows(0)` on an empty pattern, or `copy_from_slice`
with mismatched lengths (unreachable from the wrapper, where the padded
replacement has exactly the pattern's length). -/
def replaceAllGo (pat rep : List ℕ) : ℕ → List ℕ → ℕ → Option (List ℕ)
  | 0, _, _ => none
  | fuel + 1, data, position =>
    if pat.length = 0 then none
    else
      match posFind pat (data.drop position) with
      | none => some data
      | some s =>
        if rep.length = pat.length then
          replaceAllGo pat rep fuel (spliceAt data (position + s) rep) (position + s + pat.length)
        else none

/-- `utility.rs::replace_all_strings_in_bytes`: pad the replacement with
`X` (byte 88) to the pattern's length, then overwrite every
non-overlapping occurrence left to right. -/
def replace_all_strings_in_bytes (data to_replace replacement : List ℕ) :
    Option (Except String (List ℕ)) :=
  match elongate replacement 88 to_replace.length true with
  | Except.error e => some (Except.error e)
  | Except.ok rep => (replaceAllGo to_replace rep (data.length + 1) data 0).map Except.ok

/-- `utility.rs::replace_first_string_in_bytes`: pad the replacement, then
overwrite only the first occurrence; no-op when there is none. -/
def replace_first_string_in_bytes (data to_replace replacement : List ℕ) :
    Option (Except String (List ℕ)) :=
  match elongate replacement 88 to_replace.length true with
  | Except.error e => some (Except.error e)
  | Except.ok rep =>
    if to_replace.length = 0 then none
    else
      match posFind to_replace data with
      | none => some (Except.ok data)
      | some pos =>
        if pos + rep.length ≤ data.length then some (Except.ok (spliceAt data pos rep))
        else none

/-! ### Occurrence machinery for the substitution engine -/

theorem occursAt_le_length {pat data : List ℕ} {i : ℕ} (hp : pat ≠ [])
    (h : occursAt pat data i) : i + pat.length ≤ data.length := by
  unfold occursAt at h
  have hl := congrArg List.length h
  simp only [List.length_take, List.length_drop] at hl
  have hn : 0 < pat.length := List.length_pos.mpr hp
  omega

theorem occursAt_cons_succ {pat : List ℕ} (a : ℕ) (rest : List ℕ) (i : ℕ) :
    occursAt pat (a :: rest) (i + 1) ↔ occursAt pat rest i := by
  unfold occursAt
  rw [List.drop_succ_cons]

theorem occursAt_drop (pat data : List ℕ) (pos j : ℕ) :
    occursAt pat (data.drop pos) j ↔ occursAt pat data (pos + j) := by
  unfold occursAt
  rw [List.drop_drop]

theorem posFind_eq_none_iff (pat data : List ℕ) :
    posFind pat data = none ↔ ∀ i, ¬ occursAt pat data i := by
  induction data with
  | nil =>
    by_cases hp : pat.length = 0
    · have hpat : pat = [] := List.length_eq_zero.mp hp
      subst hpat
      simp only [posFind, if_pos rfl]
      constructor
      · intro h; exact Option.noConfusion h
      · intro h
        exact absurd (by simp [occursAt] : occursAt [] [] 0) (h 0)
    · simp only [posFind, if_neg hp]
      constructor
      · intro _ i hc
        unfold occursAt at hc
        simp only [List.drop_nil, List.take_nil] at hc
        exact hp (by simp [← hc])
      · intro _; trivial
  | cons a rest ih =>
    simp only [posFind]
    by_cases hm : List.take pat.length (a :: rest) = pat
    · rw [if_pos hm]
      constructor
      · intro h; exact Option.noConfusion h
      · intro h
        exact absurd (by simpa [occursAt] using hm) (h 0)
    · rw [if_neg hm]
      rw [Option.map_eq_none']
      rw [ih]
      constructor
      · intro h i
        cases i with
        | zero => intro hc; exact hm (by simpa [occursAt] using hc)
        | succ k => rw [occursAt_cons_succ]; exact h k
      · intro h i
        have := h (i + 1)
        rwa [occursAt_cons_succ] at this

theorem posFind_eq_some {pat data : List ℕ} {s : ℕ} (h : posFind pat data = some s) :
    occursAt pat data s ∧ ∀ j < s, ¬ occursAt pat data j := by
  induction data generalizing s with
  | nil =>
    simp only [posFind] at h
    by_cases hp : pat.length = 0
    · rw [if_pos hp] at h
      have hpat : pat = [] := List.length_eq_zero.mp hp
      cases h
      subst hpat
      exact ⟨by simp [occursAt], by intro j hj; omega⟩
    · rw [if_neg hp] at h
      exact Option.noConfusion h
  | cons a rest ih =>
    simp only [posFind] at h
    by_cases hm : List.take pat.length (a :: rest) = pat
    · rw [if_pos hm] at h
      cases h
      exact ⟨by simpa [occursAt] using hm, by intro j hj; omega⟩
    · rw [if_neg hm] at h
      rcases Option.map_eq_some'.mp h with ⟨t, ht, hts⟩
      obtain ⟨h1, h2⟩ := ih ht
      subst hts
      constructor
      · rw [occursAt_cons_succ]; exact h1
      · intro j hj
        cases j with
        | zero => intro hc; exact hm (by simpa [occursAt] using hc)
        | succ k =>
          rw [occursAt_cons_succ]
          exact h2 k (by omega)

theorem posFind_bound {pat data : List ℕ} {s : ℕ} (hp : pat ≠ [])
    (h : posFind pat data = some s) : s + pat.length ≤ data.length :=
  occursAt_le_length hp (posFind_eq_some h).1

theorem occursAt_iff_get {pat data : List ℕ} (i : ℕ) :
    occursAt pat data i ↔ ∀ j < pat.length, data[i + j]? = pat[j]? := by
  unfold occursAt
  constructor
  · intro h j hj
    have hc := congrArg (fun l => l[j]?) h
    simp only [List.getElem?_take, List.getElem?_drop, if_pos hj] at hc
    exact hc
  · intro h
    apply List.ext_getElem?
    intro k
    rcases Nat.lt_or_ge k pat.length with hk | hk
    · rw [List.getElem?_take, if_pos hk, List.getElem?_drop]
      exact h k hk
    · rw [List.getElem?_take, if_neg (Nat.not_lt.mpr hk)]
      exact (List.getElem?_eq_none hk).symm

theorem spliceAt_length (data rep : List ℕ) (i : ℕ) (h : i + rep.length ≤ data.length) :
    (spliceAt data i rep).length = data.length := by
  unfold spliceAt
  simp only [List.length_append, List.length_take, List.length_drop]
  omega

theorem spliceAt_getElem? (data rep : List ℕ) (s k : ℕ) (hs : s ≤ data.length) :
    (spliceAt data s rep)[k]? =
      if k < s then data[k]?
      else if k < s + rep.length then rep[k - s]?
      else data[k]? := by
  unfold spliceAt
  have hts : (data.take s).length = s := by
    simp only [List.length_take]
    omega
  have hts2 : (data.take s ++ rep).length = s + rep.length := by
    simp only [List.length_append, hts]
  rw [List.getElem?_append, hts2]
  by_cases h2 : k < s + rep.length
  · rw [if_pos h2, List.getElem?_append, hts]
    by_cases h1 : k < s
    · rw [if_pos h1, if_pos h1, List.getElem?_take, if_pos h1]
    · rw [if_neg h1, if_neg h1, if_pos h2]
  · rw [if_neg h2, if_neg (by omega : ¬ k < s), if_neg h2, List.getElem?_drop]
    congr 1
    omega


/-- Splicing a replacement into `[s, s + rep.length)` does not affect
whether the pattern occurs at a position whose window lies entirely
outside the spliced range. -/
theorem occursAt_spliceAt_untouched {pat rep data : List ℕ} {s i : ℕ}
    (hs : s + rep.length ≤ data.length)
    (h : i + pat.length ≤ s ∨ s + rep.length ≤ i) :
    occursAt pat (spliceAt data s rep) i ↔ occursAt pat data i := by
  have key : ∀ j, j < pat.length → (spliceAt data s rep)[i + j]? = data[i + j]? := by
    intro j hj
    rw [spliceAt_getElem? data rep s (i + j) (by omega)]
    rcases h with h | h
    · rw [if_pos (by omega)]
    · rw [if_neg (by omega), if_neg (by omega)]
  rw [occursAt_iff_get, occursAt_iff_get]
  constructor
  · intro hg j hj
    rw [← key j hj]
    exact hg j hj
  · intro hg j hj
    rw [key j hj]
    exact hg j hj

/-- If the pattern occurs in the spliced buffer at a window overlapping the
spliced range, then the pattern shares a boundary with the replacement:
a suffix of the pattern is a prefix of the replacement, the pattern equals
the replacement, or a prefix of the pattern is a suffix of the
replacement. -/
theorem occursAt_spliceAt_overlap {pat rep data : List ℕ} {s i : ℕ}
    (hlen : rep.length = pat.length)
    (hs : s + pat.length ≤ data.length)
    (hocc : occursAt pat (spliceAt data s rep) i)
    (h1 : i < s + pat.length) (h2 : s < i + pat.length) :
    (i < s → pat.drop (s - i) = rep.take (i + pat.length - s)) ∧
    (i = s → pat = rep) ∧
    (s < i → pat.take (s + pat.length - i) = rep.drop (i - s)) := by
  have hg := (occursAt_iff_get i).mp hocc
  refine ⟨?_, ?_, ?_⟩
  · intro hlt
    apply List.ext_getElem?
    intro k
    by_cases hk : k < i + pat.length - s
    · rw [List.getElem?_drop, List.getElem?_take, if_pos hk]
      have hj : (s - i) + k < pat.length := by omega
      have hx := hg ((s - i) + k) hj
      rw [spliceAt_getElem? data rep s _ (by omega)] at hx
      have hidx : i + ((s - i) + k) = s + k := by omega
      rw [hidx, if_neg (by omega), if_pos (by omega : s + k < s + rep.length)] at hx
      have hy : rep[k]? = pat[(s - i) + k]? := by simpa using hx
      exact hy.symm
    · rw [List.getElem?_drop, List.getElem?_take, if_neg hk]
      apply List.getElem?_eq_none
      omega
  · intro heq
    subst heq
    apply List.ext_getElem?
    intro k
    by_cases hk : k < pat.length
    · have hx := hg k hk
      rw [spliceAt_getElem? data rep i _ (by omega)] at hx
      rw [if_neg (by omega), if_pos (by omega : i + k < i + rep.length)] at hx
      have hy : rep[k]? = pat[k]? := by simpa using hx
      exact hy.symm
    · rw [List.getElem?_eq_none (by omega : pat.length ≤ k),
        List.getElem?_eq_none (by omega : rep.length ≤ k)]
  · intro hgt
    apply List.ext_getElem?
    intro k
    by_cases hk : k < s + pat.length - i
    · rw [List.getElem?_take, if_pos hk, List.getElem?_drop]
      have hj : k < pat.length := by omega
      have hx := hg k hj
      rw [spliceAt_getElem? data rep s _ (by omega)] at hx
      rw [if_neg (by omega : ¬ i + k < s), if_pos (by omega : i + k < s + rep.length)] at hx
      have hidx : i + k - s = (i - s) + k := by omega
      rw [hidx] at hx
      exact hx.symm
    · rw [List.getElem?_take, if_neg hk, List.getElem?_drop]
      exact (List.getElem?_eq_none (by omega)).symm

/-- Under the boundary conditions (pattern not inside the replacement, no
proper nonempty suffix of the pattern is a prefix of the replacement, no
proper nonempty prefix of the pattern is a suffix of the replacement),
no occurrence of the pattern can overlap a freshly spliced replacement. -/
theorem no_occursAt_spliceAt {pat rep data : List ℕ} {p : ℕ}
    (hp : pat ≠ [])
    (hlen : rep.length = pat.length)
    (hsp : p + pat.length ≤ data.length)
    (hno : ∀ i, i < pat.length → ¬ occursAt pat rep i)
    (hsuf : ∀ L, L < pat.length → 0 < L → pat.drop (pat.length - L) ≠ rep.take L)
    (hpre : ∀ L, L < pat.length → 0 < L → pat.take L ≠ rep.drop (pat.length - L))
    {i : ℕ} (hocc : occursAt pat (spliceAt data p rep) i)
    (hover1 : i < p + pat.length) (hover2 : p < i + pat.length) : False := by
  have hp0 : 0 < pat.length := List.length_pos.mpr hp
  obtain ⟨c1, c2, c3⟩ := occursAt_spliceAt_overlap hlen hsp hocc hover1 hover2
  rcases Nat.lt_trichotomy i p with hlt | heq | hgt
  · refine hsuf (i + pat.length - p) (by omega) (by omega) ?_
    have hc := c1 hlt
    rw [show pat.length - (i + pat.length - p) = p - i by omega]
    exact hc
  · have hpr : pat = rep := c2 heq
    refine hno 0 hp0 ?_
    unfold occursAt
    rw [List.drop_zero, ← hlen, List.take_length]
    exact hpr.symm
  · refine hpre (p + pat.length - i) (by omega) (by omega) ?_
    have hc := c3 hgt
    rw [show pat.length - (p + pat.length - i) = i - p by omega]
    exact hc

/-- The string `elongate` builds inside `replace_all_strings_in_bytes` and
`replace_first_string_in_bytes`: the replacement left-padded with `X`
(byte 88) to the pattern's length. -/
def paddedReplacement (pat rep : List ℕ) : List ℕ :=
  List.replicate (pat.length - rep.length) 88 ++ rep

theorem elongate_pad (pat rep : List ℕ) (h : rep.length ≤ pat.length) :
    elongate rep 88 pat.length true = Except.ok (paddedReplacement pat rep) := by
  rw [elongate_eq_ok rep 88 pat.length true h]
  simp [paddedReplacement]

theorem paddedReplacement_length (pat rep : List ℕ) (h : rep.length ≤ pat.length) :
    (paddedReplacement pat rep).length = pat.length := by
  simp only [paddedReplacement, List.length_append, List.length_replicate]
  omega

theorem count_of_no_occurrence {pat data : List ℕ} (hp : pat ≠ [])
    (h : ∀ i, ¬ occursAt pat data i) :
    count_strings_in_bytes data pat = some 0 := by
  have hn : pat.length ≠ 0 := fun hc => hp (List.length_eq_zero.mp hc)
  unfold count_strings_in_bytes
  rw [if_neg hn]
  show some (countGo pat data (data.length + 1) 0 0) = some 0
  rw [countGo]
  rw [List.drop_zero, (posFind_eq_none_iff pat data).mpr h]

/-- C6 counterexample: the buffer `"abb"` contains exactly one occurrence of
the pattern `"ab"` (the scan from index 1 onwards finds none), and the
pattern does not occur in the padded replacement `"xa"`; yet after one
`replace_first` the buffer `"xab"` still contains the pattern (count 1, not
0), and a second application is not a no-op. -/
theorem C6_counterexample :
    posFind [97, 98] [97, 98, 98] = some 0 ∧
    posFind [97, 98] (List.drop 1 [97, 98, 98]) = none ∧
    posFind [97, 98] (paddedReplacement [97, 98] [120, 97]) = none ∧
    replace_first_string_in_bytes [97, 98, 98] [97, 98] [120, 97] =
      some (Except.ok [120, 97, 98]) ∧
    count_strings_in_bytes [120, 97, 98] [97, 98] ≠ some 0 ∧
    replace_first_string_in_bytes [120, 97, 98] [97, 98] [120, 97] ≠
      some (Except.ok [120, 97, 98]) := by
  decide

/-- C6 (amended): if the buffer contains exactly one occurrence of the
pattern and the padded replacement neither contains the pattern nor shares
a boundary with it (no proper nonempty suffix of the pattern is a prefix of
the padded replacement, and no proper nonempty prefix of the pattern is a
suffix of the padded replacement), then one `replace_first` removes the
pattern (count 0) and a second application leaves the buffer unchanged. -/
theorem C6_replace_first_idempotent (data pat rep : List ℕ) (p : ℕ)
    (hp : pat ≠ [])
    (hrl : rep.length ≤ pat.length)
    (hocc : occursAt pat data p)
    (huniq : ∀ i, occursAt pat data i → i = p)
    (hno : ∀ i, i < pat.length → ¬ occursAt pat (paddedReplacement pat rep) i)
    (hsuf : ∀ L, L < pat.length → 0 < L →
      pat.drop (pat.length - L) ≠ (paddedReplacement pat rep).take L)
    (hpre : ∀ L, L < pat.length → 0 < L →
      pat.take L ≠ (paddedReplacement pat rep).drop (pat.length - L)) :
    ∃ out, replace_first_string_in_bytes data pat rep = some (Except.ok out) ∧
      count_strings_in_bytes out pat = some 0 ∧
      replace_first_string_in_bytes out pat rep = some (Except.ok out) := by
  have hl2 : (paddedReplacement pat rep).length = pat.length :=
    paddedReplacement_length pat rep hrl
  have hn : pat.length ≠ 0 := fun hc => hp (List.length_eq_zero.mp hc)
  have hp0 : 0 < pat.length := List.length_pos.mpr hp
  have hfind : posFind pat data = some p := by
    cases hf : posFind pat data with
    | none => exact absurd hocc ((posFind_eq_none_iff pat data).mp hf p)
    | some s =>
      obtain ⟨h1, _⟩ := posFind_eq_some hf
      rw [huniq s h1]
  have hsp : p + pat.length ≤ data.length := occursAt_le_length hp hocc
  have hclear : ∀ i, ¬ occursAt pat (spliceAt data p (paddedReplacement pat rep)) i := by
    intro i hocc2
    by_cases hc1 : i + pat.length ≤ p
    · have h3 := (occursAt_spliceAt_untouched (by omega) (Or.inl hc1)).mp hocc2
      have := huniq i h3
      omega
    · by_cases hc2 : p + (paddedReplacement pat rep).length ≤ i
      · have h3 := (occursAt_spliceAt_untouched (by omega) (Or.inr hc2)).mp hocc2
        have := huniq i h3
        omega
      · rw [hl2] at hc2
        exact no_occursAt_spliceAt hp hl2 hsp hno hsuf hpre hocc2 (by omega) (by omega)
  refine ⟨spliceAt data p (paddedReplacement pat rep), ?_, ?_, ?_⟩
  · unfold replace_first_string_in_bytes
    rw [elongate_pad pat rep hrl]
    simp only [if_neg hn, hfind]
    rw [if_pos (by omega : p + (paddedReplacement pat rep).length ≤ data.length)]
  · exact count_of_no_occurrence hp hclear
  · unfold replace_first_string_in_bytes
    rw [elongate_pad pat rep hrl]
    simp only [if_neg hn,
      (posFind_eq_none_iff pat (spliceAt data p (paddedReplacement pat rep))).mpr hclear]

/-- Witness for C6 (amended) at a concrete input: buffer `"abc"`, pattern
`"ab"` (unique occurrence at 0), replacement `"cd"`. -/
theorem C6_replace_first_idempotent_witness :
    ∃ out, replace_first_string_in_bytes [97, 98, 99] [97, 98] [99, 100] =
        some (Except.ok out) ∧
      count_strings_in_bytes out [97, 98] = some 0 ∧
      replace_first_string_in_bytes out [97, 98] [99, 100] = some (Except.ok out) := by
  apply C6_replace_first_idempotent [97, 98, 99] [97, 98] [99, 100] 0
  · decide
  · decide
  · decide
  · intro i hi
    have hb := occursAt_le_length (by decide : ([97, 98] : List ℕ) ≠ []) hi
    have hb2 : i < 2 := by
      simp at hb
      omega
    interval_cases i
    · rfl
    · exact absurd hi (by decide)
  · decide
  · decide
  · decide

/-- Invariant proof for the `replace_all` scan loop: under the boundary
conditions on pattern and replacement, the loop terminates within its fuel,
preserves the buffer length and removes every occurrence of the pattern. -/
theorem replaceAllGo_clears (pat rep : List ℕ)
    (hp : pat ≠ [])
    (hlen : rep.length = pat.length)
    (hno : ∀ i, i < pat.length → ¬ occursAt pat rep i)
    (hsuf : ∀ L, L < pat.length → 0 < L → pat.drop (pat.length - L) ≠ rep.take L)
    (hpre : ∀ L, L < pat.length → 0 < L → pat.take L ≠ rep.drop (pat.length - L)) :
    ∀ fuel data position,
      data.length - position < fuel →
      (∀ i, i < position → ¬ occursAt pat data i) →
      ∃ out, replaceAllGo pat rep fuel data position = some out ∧
        out.length = data.length ∧ ∀ i, ¬ occursAt pat out i := by
  have hp0 : 0 < pat.length := List.length_pos.mpr hp
  have hn : pat.length ≠ 0 := by omega
  intro fuel
  induction fuel with
  | zero =>
    intro data position hf _
    omega
  | succ f ih =>
    intro data position hf hinv
    rw [replaceAllGo, if_neg hn]
    cases hfind : posFind pat (data.drop position) with
    | none =>
      refine ⟨data, rfl, rfl, ?_⟩
      intro i hocc
      rcases Nat.lt_or_ge i position with hi | hi
      · exact hinv i hi hocc
      · have h2 : occursAt pat (data.drop position) (i - position) := by
          rw [occursAt_drop]
          rwa [show position + (i - position) = i by omega]
        exact (posFind_eq_none_iff pat (data.drop position)).mp hfind _ h2
    | some s =>
      simp only []
      rw [if_pos hlen]
      obtain ⟨hoccs, hmin⟩ := posFind_eq_some hfind
      have hbound : s + pat.length ≤ data.length - position := by
        have := occursAt_le_length hp hoccs
        simpa [List.length_drop] using this
      have hsp : (position + s) + pat.length ≤ data.length := by omega
      have hlen2 : (spliceAt data (position + s) rep).length = data.length :=
        spliceAt_length data rep (position + s) (by omega)
      have hinv2 : ∀ i, i < position + s + pat.length →
          ¬ occursAt pat (spliceAt data (position + s) rep) i := by
        intro i hi hocc2
        by_cases hc1 : i + pat.length ≤ position + s
        · have h3 := (occursAt_spliceAt_untouched (by omega) (Or.inl hc1)).mp hocc2
          rcases Nat.lt_or_ge i position with hip | hip
          · exact hinv i hip h3
          · have h4 : occursAt pat (data.drop position) (i - position) := by
              rw [occursAt_drop]
              rwa [show position + (i - position) = i by omega]
            exact hmin (i - position) (by omega) h4
        · by_cases hc2 : position + s + rep.length ≤ i
          · omega
          · exact no_occursAt_spliceAt hp hlen hsp hno hsuf hpre hocc2 (by omega) (by omega)
      have hf2 : (spliceAt data (position + s) rep).length - (position + s + pat.length) < f := by
        omega
      obtain ⟨out, h1, h2, h3⟩ := ih (spliceAt data (position + s) rep)
        (position + s + pat.length) hf2 hinv2
      exact ⟨out, h1, by omega, h3⟩

/-- C5 counterexample: pattern `"ab"`, replacement `"xa"` (already of the
pattern's length, so padding is the identity), buffer `"abb"`.  The pattern
does not occur inside the padded replacement, yet after `replace_all` the
buffer `"xab"` still contains one occurrence: the tail of the replacement
combined with the following buffer byte recreates the pattern behind the
scan position. -/
theorem C5_counterexample :
    (paddedReplacement [97, 98] [120, 97]).length = ([97, 98] : List ℕ).length ∧
    posFind [97, 98] (paddedReplacement [97, 98] [120, 97]) = none ∧
    replace_all_strings_in_bytes [97, 98, 98] [97, 98] [120, 97] =
      some (Except.ok [120, 97, 98]) ∧
    count_strings_in_bytes [120, 97, 98] [97, 98] ≠ some 0 := by
  decide

/-- C5 (amended): `replace_all` always succeeds (also with zero matches),
preserves the byte length, and leaves a buffer with zero occurrences of the
pattern, provided the padded replacement neither contains the pattern nor
shares a boundary with it (no proper nonempty suffix of the pattern is a
prefix of the padded replacement and no proper nonempty prefix of the
pattern is a suffix of the padded replacement). -/
theorem C5_replace_all_clears (data pat rep : List ℕ)
    (hp : pat ≠ [])
    (hrl : rep.length ≤ pat.length)
    (hno : ∀ i, i < pat.length → ¬ occursAt pat (paddedReplacement pat rep) i)
    (hsuf : ∀ L, L < pat.length → 0 < L →
      pat.drop (pat.length - L) ≠ (paddedReplacement pat rep).take L)
    (hpre : ∀ L, L < pat.length → 0 < L →
      pat.take L ≠ (paddedReplacement pat rep).drop (pat.length - L)) :
    ∃ out, replace_all_strings_in_bytes data pat rep = some (Except.ok out) ∧
      out.length = data.length ∧
      count_strings_in_bytes out pat = some 0 ∧
      (posFind pat data = none → out = data) := by
  have hl2 : (paddedReplacement pat rep).length = pat.length :=
    paddedReplacement_length pat rep hrl
  obtain ⟨out, h1, h2, h3⟩ := replaceAllGo_clears pat (paddedReplacement pat rep)
    hp hl2 hno hsuf hpre (data.length + 1) data 0 (by omega)
    (by intro i hi; exact absurd hi (Nat.not_lt_zero i))
  refine ⟨out, ?_, h2, count_of_no_occurrence hp h3, ?_⟩
  · unfold replace_all_strings_in_bytes
    rw [elongate_pad pat rep hrl]
    simp only [h1, Option.map_some']
  · intro hnone
    rw [replaceAllGo, if_neg (fun hc => hp (List.length_eq_zero.mp hc))] at h1
    rw [List.drop_zero, hnone] at h1
    exact (Option.some.inj h1).symm

/-- Witness for C5 (amended) at a concrete input: buffer `"abxab"` (two
occurrences), pattern `"ab"`, replacement `"cd"`. -/
theorem C5_replace_all_clears_witness :
    ∃ out, replace_all_strings_in_bytes [97, 98, 120, 97, 98] [97, 98] [99, 100] =
        some (Except.ok out) ∧
      out.length = 5 ∧
      count_strings_in_bytes out [97, 98] = some 0 ∧
      (posFind [97, 98] [97, 98, 120, 97, 98] = none → out = [97, 98, 120, 97, 98]) := by
  have h := C5_replace_all_clears [97, 98, 120, 97, 98] [97, 98] [99, 100]
    (by decide) (by decide) (by decide) (by decide) (by decide)
  simpa using h

/-! ### IEEE-754 binary32 model

`f32` values are represented by their bit patterns (naturals below
`2 ^ 32`).  Finite magnitudes decode exactly to `mag149 b / 2 ^ 149`;
operations compute the exact rational result as a `num / den` pair of
naturals and round to nearest, ties to even. -/

/-- Floor of the base-2 logarithm by structural recursion on fuel:
`lg2 fuel n = ⌊log₂ n⌋` for `1 ≤ n < 2 ^ fuel`.  Every use in this file
passes fuel 4096, far beyond the bit width of any quantity a binary32
operation can produce (at most a few hundred bits). -/
def lg2 : ℕ → ℕ → ℕ
  | 0, _ => 0
  | fuel + 1, n => if n < 2 then 0 else lg2 fuel (n / 2) + 1

/-- Round the nonnegative rational `num / den` to the nearest natural,
ties to even. -/
def rne (num den : ℕ) : ℕ :=
  let q := num / den
  let r := num % den
  if 2 * r < den then q
  else if den < 2 * r then q + 1
  else if q % 2 = 0 then q else q + 1

/-- The integer `e` with `2 ^ e ≤ num / den < 2 ^ (e + 1)`
(for `1 ≤ num`, `1 ≤ den`, both below `2 ^ 4096`). -/
def exponentOf (num den : ℕ) : ℤ :=
  let e0 : ℤ := (lg2 4096 num : ℤ) - (lg2 4096 den : ℤ)
  if den * 2 ^ e0.toNat ≤ num * 2 ^ (-e0).toNat then e0 else e0 - 1

/-- Encode a sign and an exact nonnegative magnitude `num / den`
(`1 ≤ den`) as the nearest binary32 bit pattern, ties to even; subnormal
range and overflow to infinity are handled. -/
def encodeF32 (sign : Bool) (num den : ℕ) : ℕ :=
  let signBit := if sign then 2 ^ 31 else 0
  if num = 0 then signBit
  else
    let e : ℤ := max (exponentOf num den) (-126)
    let s : ℤ := 23 - e
    let m := rne (num * 2 ^ s.toNat) (den * 2 ^ (-s).toNat)
    let m2 := if m = 2 ^ 24 then 2 ^ 23 else m
    let e2 : ℤ := if m = 2 ^ 24 then e + 1 else e
    if 127 < e2 then signBit + 255 * 2 ^ 23
    else if m2 < 2 ^ 23 then signBit + m2
    else signBit + (e2 + 127).toNat * 2 ^ 23 + (m2 - 2 ^ 23)

def f32Sign (b : ℕ) : Bool := b / 2 ^ 31 % 2 = 1

def f32Exp (b : ℕ) : ℕ := b / 2 ^ 23 % 2 ^ 8

def f32Frac (b : ℕ) : ℕ := b % 2 ^ 23

def f32IsNan (b : ℕ) : Bool := f32Exp b == 255 && f32Frac b != 0

def f32IsInf (b : ℕ) : Bool := f32Exp b == 255 && f32Frac b == 0

/-- Magnitude of a finite binary32 value, scaled by `2 ^ 149` (exact). -/
def mag149 (b : ℕ) : ℕ :=
  if f32Exp b = 0 then f32Frac b else (2 ^ 23 + f32Frac b) * 2 ^ (f32Exp b - 1)

/-- Rust `==` on `f32`: false whenever either side is NaN, equal-signed
infinities are equal, and finite values compare by real value, so
`+0.0 == -0.0` holds although the bit patterns differ. -/
def f32Eq (a b : ℕ) : Bool :=
  if f32IsNan a || f32IsNan b then false
  else if f32IsInf a || f32IsInf b then f32IsInf a && f32IsInf b && (f32Sign a == f32Sign b)
  else mag149 a == mag149 b && (f32Sign a == f32Sign b || mag149 a == 0)

def f32NanBits : ℕ := 0x7FC00000

def f32InfBits (sign : Bool) : ℕ := (if sign then 2 ^ 31 else 0) + 255 * 2 ^ 23

def f32ZeroBits (sign : Bool) : ℕ := if sign then 2 ^ 31 else 0

/-- Bit pattern of a nonnegative `f32` literal or cast written in the
source as the real number `num / den` (rounded to nearest like `rustc`
rounds decimal literals and like `u32 as f32` rounds integers). -/
def litF32 (num den : ℕ) : ℕ := encodeF32 false num den

/-- IEEE-754 binary32 multiplication on bit patterns. -/
def f32Mul (a b : ℕ) : ℕ :=
  if f32IsNan a || f32IsNan b then f32NanBits
  else
    let sign := f32Sign a != f32Sign b
    if f32IsInf a || f32IsInf b then
      if (f32IsInf a && !f32IsInf b && mag149 b == 0) ||
         (f32IsInf b && !f32IsInf a && mag149 a == 0) then f32NanBits
      else f32InfBits sign
    else encodeF32 sign (mag149 a * mag149 b) (2 ^ 149 * 2 ^ 149)

/-- IEEE-754 binary32 division on bit patterns. -/
def f32Div (a b : ℕ) : ℕ :=
  if f32IsNan a || f32IsNan b then f32NanBits
  else
    let sign := f32Sign a != f32Sign b
    if f32IsInf a then (if f32IsInf b then f32NanBits else f32InfBits sign)
    else if f32IsInf b then f32ZeroBits sign
    else if mag149 b = 0 then (if mag149 a = 0 then f32NanBits else f32InfBits sign)
    else encodeF32 sign (mag149 a) (mag149 b)

/-- IEEE-754 binary32 addition on bit patterns (round to nearest even;
exact cancellation of nonzero operands yields `+0.0`). -/
def f32Add (a b : ℕ) : ℕ :=
  if f32IsNan a || f32IsNan b then f32NanBits
  else if f32IsInf a || f32IsInf b then
    if f32IsInf a && f32IsInf b then
      (if f32Sign a == f32Sign b then f32InfBits (f32Sign a) else f32NanBits)
    else if f32IsInf a then f32InfBits (f32Sign a)
    else f32InfBits (f32Sign b)
  else if f32Sign a == f32Sign b then encodeF32 (f32Sign a) (mag149 a + mag149 b) (2 ^ 149)
  else if mag149 b < mag149 a then encodeF32 (f32Sign a) (mag149 a - mag149 b) (2 ^ 149)
  else if mag149 a < mag149 b then encodeF32 (f32Sign b) (mag149 b - mag149 a) (2 ^ 149)
  else f32ZeroBits false

/-- `f32::to_le_bytes` of a bit pattern. -/
def f32LeBytes (b : ℕ) : List ℕ :=
  [b % 256, b / 2 ^ 8 % 256, b / 2 ^ 16 % 256, b / 2 ^ 24 % 256]

/-- `f32::from_le_bytes(buffer[i..i+4])` as a bit pattern. -/
def window4 (buffer : List ℕ) (i : ℕ) : ℕ :=
  buffer.getD i 0 + 2 ^ 8 * buffer.getD (i + 1) 0 +
    2 ^ 16 * buffer.getD (i + 2) 0 + 2 ^ 24 * buffer.getD (i + 3) 0

/-- `buffer[i..i+4].copy_from_slice(&replacement.to_le_bytes())`. -/
def writeBytes4 (buffer : List ℕ) (i : ℕ) (w : ℕ) : List ℕ :=
  buffer.take i ++ f32LeBytes w ++ buffer.drop (i + 4)

/-! ### Sentinel float patcher (`utility.rs::find_and_replace_float`) -/

/-- `utility.rs::find_and_replace_float`.  The source iterates
`for i in 0..buffer_len - 4`, so the final window at offset
`buffer_len - 4` is never examined; this embedding reproduces that bound
exactly (`List.range (len - 4)` stops at `len - 5`).  For a buffer shorter
than 4 bytes `buffer_len - 4` underflows and the function panics (debug:
overflow check; release: wrap followed by an out-of-range slice), modelled
as `none`. -/
def find_and_replace_float (buffer : List ℕ) (target replacement : ℕ) : Option (List ℕ) :=
  if buffer.length < 4 then none
  else
    some ((List.range (buffer.length - 4)).foldl
      (fun buf i => if f32Eq (window4 buf i) target then writeBytes4 buf i replacement else buf)
      buffer)

/-! ### Grid timing calculator (`src/lib.rs::process_videos`, grid loop) -/

/-- `src/lib.rs`: `match grid_nr.cmp(&grid_amount) { Less => 25.6, Equal =>
last_stop_time, Greater => 0f32 }` (bit patterns; `litF32 128 5` is
`25.6f32`). -/
def controllerFloat (grid_nr grid_amount : ℕ) (last_stop_time : ℕ) : ℕ :=
  match compare grid_nr grid_amount with
  | Ordering.lt => litF32 128 5
  | Ordering.eq => last_stop_time
  | Ordering.gt => f32ZeroBits false

/-- `src/lib.rs`: `if controller_float == 0f32 || video_framerate == 10 {
controller_float } else { controller_float / video_framerate as f32 * 10f32 }`. -/
def textkeyFloat (controller_float video_framerate : ℕ) : ℕ :=
  if f32Eq controller_float (f32ZeroBits false) || video_framerate == 10 then controller_float
  else f32Mul (f32Div controller_float (litF32 video_framerate 1)) (litF32 10 1)

/-- `src/lib.rs`: `(video_framerate as f32) / 10f32`, the replacement for
the `1313f32` sentinel. -/
def speedFloat (video_framerate : ℕ) : ℕ :=
  f32Div (litF32 video_framerate 1) (litF32 10 1)

/-- The `for grid_nr in 1..25` loop of `process_videos`: patch the
`121200 + grid_nr` sentinel with the textkey float, then the
`141400 + grid_nr` sentinel with the controller float, for each slot. -/
def meshGridStage (mesh : List ℕ) (grid_amount last_stop_time video_framerate : ℕ) :
    Option (List ℕ) :=
  (List.range 24).foldl
    (fun acc k =>
      acc.bind fun buf =>
        let grid_nr := k + 1
        let controller := controllerFloat grid_nr grid_amount last_stop_time
        let textkey := textkeyFloat controller video_framerate
        (find_and_replace_float buf (f32Add (litF32 121200 1) (litF32 grid_nr 1)) textkey).bind
          fun buf2 =>
            find_and_replace_float buf2 (f32Add (litF32 141400 1) (litF32 grid_nr 1)) controller)
    (some mesh)

/-- The full per-mesh float patching of `process_videos`: the 24-slot grid
loop followed by the single `1313` speed-sentinel replacement. -/
def meshSentinelPass (mesh : List ℕ) (grid_amount last_stop_time video_framerate : ℕ) :
    Option (List ℕ) :=
  (meshGridStage mesh grid_amount last_stop_time video_framerate).bind fun buf =>
    find_and_replace_float buf (litF32 1313 1) (speedFloat video_framerate)

/-- Grid Timing Calculator as the spec words it (§4.4): `25.6` if
`slot < grid_amount`, `last_stop_time` if `slot == grid_amount`, `0.0` if
`slot > grid_amount`. -/
def controllerFloatSpec (slot grid_amount last_stop_time : ℕ) : ℕ :=
  if slot < grid_amount then litF32 128 5
  else if slot = grid_amount then last_stop_time
  else f32ZeroBits false

/-- Textkey float as the spec words it (§4.4): equal to the controller
float when that is `0.0` or the frame rate is 10, otherwise
`controller_float / frame_rate * 10` in `f32` arithmetic. -/
def textkeyFloatSpec (controller frame_rate : ℕ) : ℕ :=
  if f32Eq controller (f32ZeroBits false) || frame_rate == 10 then controller
  else f32Mul (f32Div controller (litF32 frame_rate 1)) (litF32 10 1)

/-- Speed float as the spec words it (§4.4): `frame_rate / 10.0`. -/
def speedFloatSpec (frame_rate : ℕ) : ℕ :=
  f32Div (litF32 frame_rate 1) (litF32 10 1)

/-- C2: for every slot and grid count in 1..24, the controller float the
code computes matches the spec's case analysis, the textkey float matches
the spec's rescaling formula, the speed float is `frame_rate / 10.0`, and
the per-mesh patching ends by replacing the `1313` sentinel with exactly
that speed float in every mesh buffer. -/
theorem C2_grid_timing_formulas (slot grid_amount last_stop_time video_framerate : ℕ)
    (mesh : List ℕ)
    (h1 : 1 ≤ slot) (h2 : slot ≤ 24) (h3 : 1 ≤ grid_amount) (h4 : grid_amount ≤ 24) :
    controllerFloat slot grid_amount last_stop_time =
      controllerFloatSpec slot grid_amount last_stop_time ∧
    textkeyFloat (controllerFloat slot grid_amount last_stop_time) video_framerate =
      textkeyFloatSpec (controllerFloatSpec slot grid_amount last_stop_time) video_framerate ∧
    speedFloat video_framerate = speedFloatSpec video_framerate ∧
    meshSentinelPass mesh grid_amount last_stop_time video_framerate =
      (meshGridStage mesh grid_amount last_stop_time video_framerate).bind
        (fun buf => find_and_replace_float buf (litF32 1313 1)
          (speedFloatSpec video_framerate)) := by
  have hc : controllerFloat slot grid_amount last_stop_time =
      controllerFloatSpec slot grid_amount last_stop_time := by
    unfold controllerFloat controllerFloatSpec
    rcases Nat.lt_trichotomy slot grid_amount with h | h | h
    · rw [Nat.compare_eq_lt.mpr h]
      simp only []
      rw [if_pos h]
    · rw [Nat.compare_eq_eq.mpr h]
      simp only []
      rw [if_neg (by omega), if_pos h]
    · rw [Nat.compare_eq_gt.mpr h]
      simp only []
      rw [if_neg (by omega), if_neg (by omega)]
  refine ⟨hc, by rw [hc]; rfl, rfl, rfl⟩

/-- Witness for C2 at a concrete input: slot 3, grid count 5, stop time
`42.0f32`, frame rate 20, and an 8-byte mesh holding the `1313` sentinel. -/
theorem C2_grid_timing_formulas_witness :
    (1 ≤ 3 ∧ 3 ≤ 24 ∧ 1 ≤ 5 ∧ 5 ≤ 24) ∧
    (controllerFloat 3 5 (litF32 42 1) = controllerFloatSpec 3 5 (litF32 42 1) ∧
     textkeyFloat (controllerFloat 3 5 (litF32 42 1)) 20 =
       textkeyFloatSpec (controllerFloatSpec 3 5 (litF32 42 1)) 20 ∧
     speedFloat 20 = speedFloatSpec 20 ∧
     meshSentinelPass (f32LeBytes (litF32 1313 1) ++ [0, 0, 0, 0]) 5 (litF32 42 1) 20 =
       (meshGridStage (f32LeBytes (litF32 1313 1) ++ [0, 0, 0, 0]) 5 (litF32 42 1) 20).bind
         (fun buf => find_and_replace_float buf (litF32 1313 1) (speedFloatSpec 20))) :=
  ⟨by decide,
   C2_grid_timing_formulas 3 5 (litF32 42 1) 20 (f32LeBytes (litF32 1313 1) ++ [0, 0, 0, 0])
     (by decide) (by decide) (by decide) (by decide)⟩

/-- C3 counterexample: with `grid_amount = 5`, `last_stop_time = 42.0`,
`frame_rate = 20`, the slot-1 controller float is `25.6f32` as claimed, but
the textkey float is NOT the `f32` nearest to `12.8` (`litF32 64 5`, bit
pattern 0x414CCCCD): `25.6f32 / 20 * 10` rounds twice and lands one ULP
below, at bit pattern 0x414CCCCC. -/
theorem C3_counterexample :
    controllerFloat 1 5 (litF32 42 1) = litF32 128 5 ∧
    textkeyFloat (controllerFloat 1 5 (litF32 42 1)) 20 ≠ litF32 64 5 ∧
    textkeyFloat (controllerFloat 1 5 (litF32 42 1)) 20 = 1095552204 := by
  decide

/-- C3 (amended): with `grid_amount = 5`, `last_stop_time = 42.0`,
`frame_rate = 20`: slots 1..4 give controller `25.6f32` and textkey bit
pattern 0x414CCCCC = 1095552204 (12.799999237060547, one ULP below the
nearest `f32` to `12.8`); slot 5 gives controller `42.0` and textkey
exactly `21.0`; slots 6..24 give `0.0` for both; the global speed float is
exactly `2.0`. -/
theorem C3_grid_timing_concrete (slot : ℕ) (h1 : 1 ≤ slot) (h2 : slot ≤ 24) :
    controllerFloat slot 5 (litF32 42 1) =
      (if slot < 5 then litF32 128 5 else if slot = 5 then litF32 42 1
       else f32ZeroBits false) ∧
    textkeyFloat (controllerFloat slot 5 (litF32 42 1)) 20 =
      (if slot < 5 then 1095552204 else if slot = 5 then litF32 21 1
       else f32ZeroBits false) ∧
    speedFloat 20 = litF32 2 1 := by
  rcases Nat.lt_trichotomy slot 5 with h | h | h
  · have hc : controllerFloat slot 5 (litF32 42 1) = litF32 128 5 := by
      unfold controllerFloat
      rw [Nat.compare_eq_lt.mpr h]
    refine ⟨by rw [hc, if_pos h], ?_, by decide⟩
    rw [hc, if_pos h]
    decide
  · have hc : controllerFloat slot 5 (litF32 42 1) = litF32 42 1 := by
      unfold controllerFloat
      rw [Nat.compare_eq_eq.mpr h]
    refine ⟨by rw [hc, if_neg (by omega), if_pos h], ?_, by decide⟩
    rw [hc, if_neg (by omega), if_pos h]
    decide
  · have hc : controllerFloat slot 5 (litF32 42 1) = f32ZeroBits false := by
      unfold controllerFloat
      rw [Nat.compare_eq_gt.mpr h]
    refine ⟨by rw [hc, if_neg (by omega), if_neg (by omega)], ?_, by decide⟩
    rw [hc, if_neg (by omega), if_neg (by omega)]
    decide

/-- Witness for C3 (amended) at slot 2. -/
theorem C3_grid_timing_concrete_witness :
    (1 ≤ 2 ∧ 2 ≤ 24) ∧
    (controllerFloat 2 5 (litF32 42 1) =
      (if 2 < 5 then litF32 128 5 else if 2 = 5 then litF32 42 1
       else f32ZeroBits false) ∧
    textkeyFloat (controllerFloat 2 5 (litF32 42 1)) 20 =
      (if 2 < 5 then 1095552204 else if 2 = 5 then litF32 21 1
       else f32ZeroBits false) ∧
    speedFloat 20 = litF32 2 1) :=
  ⟨by decide, C3_grid_timing_concrete 2 (by decide) (by decide)⟩

/-- C1 (the code misses the final window): an 8-byte buffer whose last
4 bytes are exactly the little-endian bit pattern of the target `1.0f32`
comes back unchanged from `find_and_replace_float`, because the loop
`for i in 0..buffer_len - 4` never examines offset `buffer_len - 4`; the
same pattern at an offset strictly below `buffer_len - 4` IS rewritten to
the replacement `2.0f32` pattern. -/
theorem C1_final_offset_skipped :
    List.drop 4 [0, 0, 0, 0, 0, 0, 128, 63] = f32LeBytes (litF32 1 1) ∧
    f32Eq (window4 [0, 0, 0, 0, 0, 0, 128, 63] 4) (litF32 1 1) = true ∧
    find_and_replace_float [0, 0, 0, 0, 0, 0, 128, 63] (litF32 1 1) (litF32 2 1) =
      some [0, 0, 0, 0, 0, 0, 128, 63] ∧
    find_and_replace_float [0, 0, 128, 63, 0, 0, 0, 0] (litF32 1 1) (litF32 2 1) =
      some [0, 0, 0, 64, 0, 0, 0, 0] := by
  decide

/-- C10: `find_and_replace_float` panics exactly on buffers shorter than
4 bytes (`buffer_len - 4` underflows; the panic is modelled as `none`),
and returns normally on every buffer of length at least 4. -/
theorem C10_short_buffer_underflow (buffer : List ℕ) (target replacement : ℕ) :
    find_and_replace_float buffer target replacement = none ↔ buffer.length < 4 := by
  unfold find_and_replace_float
  by_cases h : buffer.length < 4
  · simp [h]
  · simp [h]

/-! ### Frame-size validation (`src/lib.rs`, `size` checks) -/

/-- 32-bit bitwise AND by structural recursion over the 32 bit positions
(the Rust `&` on `u32`). -/
def landFuel : ℕ → ℕ → ℕ → ℕ
  | 0, _, _ => 0
  | f + 1, a, b => (if a % 2 = 1 ∧ b % 2 = 1 then 1 else 0) + 2 * landFuel f (a / 2) (b / 2)

def u32And (a b : ℕ) : ℕ := landFuel 32 a b

/-- `src/lib.rs`: `if (size & (size - 1)) != 0` then reject, then
`if size > 1024` then reject.  `size - 1` is `u32` arithmetic: in a release
build `0 - 1` wraps to `2^32 - 1` (a debug build would panic instead), so
`size = 0` slips through both checks. -/
def frameSizeCheck (size : ℕ) : Except String Unit :=
  if u32And size ((size + 2 ^ 32 - 1) % 2 ^ 32) ≠ 0 then
    Except.error "is not a power of 2 (e.g. 128, 256, 512)"
  else if size > 1024 then
    Except.error "It is not recommended to have a frame size over 1024"
  else Except.ok ()

/-- The spec-side notion: `size` is a power of two. -/
def isPow2 (n : ℕ) : Prop := ∃ k, n = 2 ^ k

theorem u32And_pred_pow2 :
    ∀ n, n < 1025 → 1 ≤ n → (u32And n (n - 1) = 0 ↔ ∃ k, k < 11 ∧ n = 2 ^ k) := by
  decide

/-- C7 counterexample: `size = 0` is not a power of two, yet the validation
accepts it: `0 - 1` wraps to `2^32 - 1` on `u32`, and `0 & (2^32 - 1) = 0`
passes the power-of-two test, while `0 ≤ 1024` passes the size cap. -/
theorem C7_counterexample :
    frameSizeCheck 0 = Except.ok () ∧ ¬ isPow2 0 := by
  constructor
  · decide
  · rintro ⟨k, hk⟩
    have hpos : 0 < 2 ^ k := pow_pos (by norm_num) k
    omega

/-! ### Orchestrator model (`src/lib.rs::process_videos`, normal mode)

The model covers the non-script-generation path of `process_videos`:
capacity prompt, name validation, frame-size validation, the three
mod-identifier encodings, the per-video identifier substitutions into the
primary (`tv`) and compact-secondary (`di`, DriveIn) plugin buffers, and
the final file writes.  The external video conversion is an oracle: each
`VideoJob` carries the `(grid_amount, last_stop_time, audio_name)` that
`convert::convert_video` returns for it, plus its effective frame rate.
Mesh-file generation is per video, never touches the plugin buffers, and
its substitutions use width-10 identifiers on width-10 tokens (no failure
path relevant to the plugin outputs); it is outside this model. -/

structure VideoJob where
  name : List ℕ
  grid_amount : ℕ
  last_stop_time : ℕ
  framerate : ℕ
  audio_name : List ℕ

inductive Mode where
  | YES
  | NO
  | UiMode

/-- Panic-or-error monad bind: `none` is a panic, `Except.error` a Rust
`Err` propagated by `?`. -/
def pbind {α β : Type} (x : Option (Except String α)) (f : α → Option (Except String β)) :
    Option (Except String β) :=
  match x with
  | none => none
  | some (Except.error e) => some (Except.error e)
  | some (Except.ok a) => f a

def pret {α : Type} (a : α) : Option (Except String α) := some (Except.ok a)

def toPR {α : Type} (x : Except String α) : Option (Except String α) := some x

/-- `videos.iter().position(|(n, _, _)| n == name).unwrap()`. -/
def firstIdx : List (List ℕ) → List ℕ → ℕ
  | [], _ => 0
  | a :: rest, n => if a = n then 0 else firstIdx rest n + 1

/-- The name-validation loop of `process_videos`: every video name must
have at most 10 bytes, and the first position of each name must be its own
index (no duplicate names). -/
def checkNamesGo (all : List (List ℕ)) : ℕ → List (List ℕ) → Except String Unit
  | _, [] => Except.ok ()
  | index, name :: rest =>
    if name.length > 10 then Except.error "Name is too long. Max 10 characters!"
    else if firstIdx all name ≠ index then
      Except.error "Cannot have two videos with the name name"
    else checkNamesGo all (index + 1) rest

def checkVideoNames (names : List (List ℕ)) : Except String Unit :=
  checkNamesGo names 0 names

/-- The over-capacity prompt of `process_videos` (non-script mode):
more than 10 videos is an error in UI mode, auto-accepted in yes-to-all
mode, and gated on the interactive answer otherwise. -/
def capacityCheck (mode : Mode) (userConfirms : Bool) (count : ℕ) : Except String Unit :=
  if count > 10 then
    match mode with
    | Mode.UiMode => Except.error "an esp can only support 10"
    | Mode.YES => Except.ok ()
    | Mode.NO => if userConfirms then Except.ok () else Except.error "Too many videos"
  else Except.ok ()

def tokAUTOCIDENT : List ℕ := [65, 85, 84, 79, 67, 73, 68, 69, 78, 84]

def tokAUTOVIDENT : List ℕ := [65, 85, 84, 79, 86, 73, 68, 69, 78, 84]

def tokAUTOSIDENT : List ℕ := [65, 85, 84, 79, 83, 73, 68, 69, 78, 84]

def tokAUTOPIDENT : List ℕ := [65, 85, 84, 79, 80, 73, 68, 69, 78, 84]

def tokAUTOTIDENT : List ℕ := [65, 85, 84, 79, 84, 73, 68, 69, 78, 84]

def tokAUTOMIDENT : List ℕ := [65, 85, 84, 79, 77, 73, 68, 69, 78, 84]

def tokZAUTONIDEN : List ℕ := [90, 65, 85, 84, 79, 78, 73, 68, 69, 78]

def tokAUTOIDENTSOUND : List ℕ :=
  [65, 85, 84, 79, 73, 68, 69, 78, 84, 83, 79, 85, 78, 68]

/-- The eight identifier substitutions `process_videos` applies to one
plugin buffer for one video, in source order. -/
def applyVideoSubs (bytes modX modT modL vidX vidT audio : List ℕ) :
    Option (Except String (List ℕ)) :=
  pbind (replace_all_strings_in_bytes bytes tokAUTOCIDENT modX) fun b1 =>
  pbind (replace_first_string_in_bytes b1 tokAUTOVIDENT vidX) fun b2 =>
  pbind (replace_first_string_in_bytes b2 tokAUTOSIDENT vidX) fun b3 =>
  pbind (replace_first_string_in_bytes b3 tokAUTOPIDENT vidX) fun b4 =>
  pbind (replace_all_strings_in_bytes b4 tokAUTOTIDENT modT) fun b5 =>
  pbind (replace_all_strings_in_bytes b5 tokAUTOMIDENT modL) fun b6 =>
  pbind (replace_first_string_in_bytes b6 tokZAUTONIDEN vidT) fun b7 =>
  replace_first_string_in_bytes b7 tokAUTOIDENTSOUND audio

/-- The per-video loop of `process_videos` restricted to the plugin-buffer
state: the primary buffer receives every video's substitutions, the
DriveIn buffer only those of videos with `grid_amount <= 8`, and the
write-DriveIn flag becomes true once any video qualifies. -/
def processVideosLoop (modX modT modL : List ℕ) :
    List VideoJob → List ℕ → List ℕ → Bool → Option (Except String (List ℕ × List ℕ × Bool))
  | [], tv, di, flag => pret (tv, di, flag)
  | v :: rest, tv, di, flag =>
    pbind (toPR (elongate v.name 88 10 true)) fun vidX =>
    pbind (toPR (elongate v.name 32 10 false)) fun vidT =>
    let flag2 := flag || decide (v.grid_amount ≤ 8)
    pbind (applyVideoSubs tv modX modT modL vidX vidT v.audio_name) fun tv2 =>
    if v.grid_amount ≤ 8 then
      pbind (applyVideoSubs di modX modT modL vidX vidT v.audio_name) fun di2 =>
      processVideosLoop modX modT modL rest tv2 di2 flag2
    else
      processVideosLoop modX modT modL rest tv2 di flag2

/-- `format!("output/VotW_{}.esp", mod_name)`. -/
def tvEspPath (mod_name : List ℕ) : List ℕ :=
  [111, 117, 116, 112, 117, 116, 47, 86, 111, 116, 87, 95] ++ mod_name ++ [46, 101, 115, 112]

/-- `format!("output/VotW_{}_DriveIn.esp", mod_name)`. -/
def diEspPath (mod_name : List ℕ) : List ℕ :=
  [111, 117, 116, 112, 117, 116, 47, 86, 111, 116, 87, 95] ++ mod_name ++
    [95, 68, 114, 105, 118, 101, 73, 110, 46, 101, 115, 112]

/-- `src/lib.rs::process_videos`, normal (non-script-generation) mode,
restricted to the plugin pipeline: validations in source order, the three
mod-identifier encodings, the per-video substitution loop, and the final
writes.  The result carries the final buffer states, the DriveIn flag and
the list of `(path, contents)` files written; errors and panics produce no
files. -/
def process_videos (mode : Mode) (userConfirms : Bool) (mod_name : List ℕ) (size : ℕ)
    (tvTemplate diTemplate : List ℕ) (videos : List VideoJob) :
    Option (Except String (List ℕ × List ℕ × Bool × List (List ℕ × List ℕ))) :=
  pbind (toPR (capacityCheck mode userConfirms videos.length)) fun _ =>
  pbind (toPR (checkVideoNames (videos.map VideoJob.name))) fun _ =>
  pbind (toPR (frameSizeCheck size)) fun _ =>
  pbind (toPR (elongate mod_name 88 10 true)) fun modX =>
  pbind (toPR (elongate mod_name 32 10 true)) fun modL =>
  pbind (toPR (elongate mod_name 32 10 false)) fun modT =>
  pbind (processVideosLoop modX modT modL videos tvTemplate diTemplate false) fun res =>
  pret (res.1, res.2.1, res.2.2,
    (tvEspPath mod_name, res.1) ::
      (if res.2.2 then [(diEspPath mod_name, res.2.1)] else []))

theorem pbind_error_ne_ok {α β : Type} (e : String) (f : α → Option (Except String β)) (r : β) :
    pbind (some (Except.error e)) f ≠ some (Except.ok r) := by
  simp [pbind]

/-- C7 (amended): for every nonzero `u32` frame size, the validation of
`process_videos` accepts exactly the powers of two that are at most 1024
(`768` is rejected as not a power of two, `2048` as exceeding 1024); and
whenever the frame-size validation rejects, `process_videos` cannot return
successfully, so no output file is produced.  `size = 0` is the exception
the counterexample exhibits: the `u32` subtraction `size - 1` wraps and
the check accepts 0. -/
theorem C7_frame_size_validation :
    (∀ size : ℕ, size < 2 ^ 32 → size ≠ 0 →
      (frameSizeCheck size = Except.ok () ↔ (isPow2 size ∧ size ≤ 1024))) ∧
    (∀ mode uc mod_name size tvT diT videos r,
      frameSizeCheck size ≠ Except.ok () →
      process_videos mode uc mod_name size tvT diT videos ≠ some (Except.ok r)) := by
  constructor
  · intro size hs h0
    have hw : (size + 2 ^ 32 - 1) % 2 ^ 32 = size - 1 := by
      have h1 : size + 2 ^ 32 - 1 = (size - 1) + 2 ^ 32 := by omega
      rw [h1, Nat.add_mod_right]
      exact Nat.mod_eq_of_lt (by omega)
    unfold frameSizeCheck
    rw [hw]
    by_cases hle : size ≤ 1024
    · have key := u32And_pred_pow2 size (by omega) (by omega)
      constructor
      · intro hok
        by_cases hz : u32And size (size - 1) = 0
        · obtain ⟨k, _, hk⟩ := key.mp hz
          exact ⟨⟨k, hk⟩, hle⟩
        · rw [if_pos hz] at hok
          exact absurd hok (fun hc => Except.noConfusion hc)
      · rintro ⟨⟨k, hk⟩, h1024⟩
        have hk10 : k < 11 := by
          by_contra hco
          have h2k : 2 ^ 11 ≤ 2 ^ k := Nat.pow_le_pow_right (by omega) (by omega)
          omega
        rw [if_neg (by simpa using key.mpr ⟨k, hk10, hk⟩), if_neg (by omega)]
    · constructor
      · intro hok
        by_cases hz : u32And size (size - 1) = 0
        · rw [if_neg (by simpa using hz), if_pos (by omega)] at hok
          exact absurd hok (fun hc => Except.noConfusion hc)
        · rw [if_pos hz] at hok
          exact absurd hok (fun hc => Except.noConfusion hc)
      · rintro ⟨_, h1024⟩
        omega
  · intro mode uc mod_name size tvT diT videos r hbad
    unfold process_videos
    cases hc : capacityCheck mode uc videos.length with
    | error e =>
      intro hcon
      simp [pbind, toPR] at hcon
    | ok u =>
      cases hn : checkVideoNames (videos.map VideoJob.name) with
      | error e =>
        intro hcon
        simp [pbind, toPR] at hcon
      | ok u2 =>
        cases hf : frameSizeCheck size with
        | error e =>
          intro hcon
          simp [pbind, toPR] at hcon
        | ok u3 =>
          obtain ⟨⟩ := u3
          exact absurd hf hbad

/-- Witness for C7 at concrete sizes: 512 accepted, 768 and 2048 rejected,
and a rejected size yields no successful run. -/
theorem C7_frame_size_validation_witness :
    (512 < 2 ^ 32 ∧ 512 ≠ 0) ∧
    (frameSizeCheck 512 = Except.ok () ↔ (isPow2 512 ∧ 512 ≤ 1024)) ∧
    frameSizeCheck 768 ≠ Except.ok () ∧
    frameSizeCheck 2048 ≠ Except.ok () ∧
    process_videos Mode.YES true [77] 768 [] [] [] ≠
      some (Except.ok ([], [], false, [])) := by
  refine ⟨⟨by norm_num, by norm_num⟩,
    C7_frame_size_validation.1 512 (by norm_num) (by norm_num),
    by decide, by decide,
    C7_frame_size_validation.2 Mode.YES true [77] 768 [] [] [] ([], [], false, []) (by decide)⟩

theorem firstIdx_le {all : List (List ℕ)} {x : List ℕ} {i : ℕ} (h : all[i]? = some x) :
    firstIdx all x ≤ i := by
  induction all generalizing i with
  | nil => simp at h
  | cons a rest ih =>
    cases i with
    | zero =>
      simp at h
      subst h
      simp [firstIdx]
    | succ j =>
      simp at h
      unfold firstIdx
      by_cases ha : a = x
      · simp [ha]
      · simp only [ha, if_neg, if_false]
        have := ih h
        omega

theorem firstIdx_getElem? {all : List (List ℕ)} {x : List ℕ} {i : ℕ} (h : all[i]? = some x) :
    all[firstIdx all x]? = some x := by
  induction all generalizing i with
  | nil => simp at h
  | cons a rest ih =>
    unfold firstIdx
    by_cases ha : a = x
    · simp [ha]
    · simp only [ha, if_neg, if_false]
      simp only [List.getElem?_cons_succ]
      cases i with
      | zero =>
        simp at h
        exact absurd h ha
      | succ j =>
        simp at h
        exact ih h

theorem checkNamesGo_ok_iff (all : List (List ℕ)) (rest : List (List ℕ)) :
    ∀ index, checkNamesGo all index rest = Except.ok () ↔
      ∀ k x, rest[k]? = some x → x.length ≤ 10 ∧ firstIdx all x = index + k := by
  induction rest with
  | nil =>
    intro index
    constructor
    · intro _ k x hk
      simp at hk
    · intro _
      rfl
  | cons name rest ih =>
    intro index
    unfold checkNamesGo
    by_cases h10 : name.length > 10
    · rw [if_pos h10]
      constructor
      · intro hc
        exact absurd hc (fun hc2 => Except.noConfusion hc2)
      · intro hall
        have := (hall 0 name (by simp)).1
        omega
    · rw [if_neg h10]
      by_cases hidx : firstIdx all name ≠ index
      · rw [if_pos hidx]
        constructor
        · intro hc
          exact absurd hc (fun hc2 => Except.noConfusion hc2)
        · intro hall
          have := (hall 0 name (by simp)).2
          omega
      · rw [if_neg hidx]
        push_neg at hidx
        rw [ih (index + 1)]
        constructor
        · intro hall k x hk
          cases k with
          | zero =>
            simp at hk
            subst hk
            exact ⟨by omega, by omega⟩
          | succ j =>
            simp at hk
            have := hall j x hk
            exact ⟨this.1, by omega⟩
        · intro hall k x hk
          have := hall (k + 1) x (by simpa using hk)
          exact ⟨this.1, by omega⟩

theorem checkVideoNames_ok_iff (names : List (List ℕ)) :
    checkVideoNames names = Except.ok () ↔
      (∀ n ∈ names, n.length ≤ 10) ∧ names.Nodup := by
  unfold checkVideoNames
  rw [checkNamesGo_ok_iff names names 0]
  constructor
  · intro h
    constructor
    · intro n hn
      obtain ⟨k, hk⟩ := List.getElem?_of_mem hn
      exact (h k n hk).1
    · rw [List.nodup_iff_injective_get]
      rintro ⟨i, hi⟩ ⟨j, hj⟩ hij
      simp only [List.get_eq_getElem] at hij
      have h1 := (h i _ (List.getElem?_eq_getElem hi)).2
      have h2 := (h j _ (List.getElem?_eq_getElem hj)).2
      rw [hij] at h1
      apply Fin.ext
      simp only []
      omega
  · rintro ⟨hlen, hnodup⟩ k x hk
    have hkl : k < names.length := (List.getElem?_eq_some.mp hk).1
    refine ⟨hlen x (List.getElem?_mem hk), ?_⟩
    have h1 := firstIdx_getElem? hk
    have h2 := firstIdx_le hk
    have hfl : firstIdx names x < names.length := by omega
    rw [List.nodup_iff_injective_get] at hnodup
    have hget : names.get ⟨firstIdx names x, hfl⟩ = names.get ⟨k, hkl⟩ := by
      have e1 : names[firstIdx names x]? = some (names.get ⟨firstIdx names x, hfl⟩) := by
        simp [List.getElem?_eq_getElem hfl]
      have e2 : names[k]? = some (names.get ⟨k, hkl⟩) := by
        simp [List.getElem?_eq_getElem hkl]
      rw [e1] at h1
      rw [e2] at hk
      rw [Option.some.injEq] at h1 hk
      rw [h1, hk]
    have hfin := hnodup hget
    have hcomp : firstIdx names x = k := congrArg Fin.val hfin
    omega

/-- C8: the name validation of `process_videos` succeeds exactly when every
video name has at most 10 bytes and all names are distinct; the mod-name
check (the `elongate(..., 10, ...)` call) succeeds exactly when the mod
name has at most 10 bytes — so names of exactly 10 bytes pass both — and
whenever either fails, `process_videos` cannot return successfully. -/
theorem C8_name_validation (mode : Mode) (uc : Bool) (mod_name : List ℕ) (size : ℕ)
    (tvT diT : List ℕ) (videos : List VideoJob) :
    (checkVideoNames (videos.map VideoJob.name) = Except.ok () ↔
      (∀ n ∈ videos.map VideoJob.name, n.length ≤ 10) ∧
        (videos.map VideoJob.name).Nodup) ∧
    ((∃ r, elongate mod_name 88 10 true = Except.ok r) ↔ mod_name.length ≤ 10) ∧
    ((checkVideoNames (videos.map VideoJob.name) ≠ Except.ok () ∨ 10 < mod_name.length) →
      ∀ r, process_videos mode uc mod_name size tvT diT videos ≠ some (Except.ok r)) := by
  refine ⟨checkVideoNames_ok_iff _, elongate_ok_iff mod_name 88 10 true, ?_⟩
  intro hbad r
  unfold process_videos
  cases hc : capacityCheck mode uc videos.length with
  | error e =>
    intro hcon
    simp [pbind, toPR] at hcon
  | ok u =>
    cases hn : checkVideoNames (videos.map VideoJob.name) with
    | error e =>
      intro hcon
      simp [pbind, toPR] at hcon
    | ok u2 =>
      obtain ⟨⟩ := u2
      rcases hbad with hb | hb
      · exact absurd hn hb
      · cases hf : frameSizeCheck size with
        | error e =>
          intro hcon
          simp [pbind, toPR] at hcon
        | ok u3 =>
          cases hm : elongate mod_name 88 10 true with
          | error e =>
            intro hcon
            simp [pbind, toPR] at hcon
          | ok rr =>
            have := (elongate_length mod_name 88 10 true rr hm).2
            omega

/-- Concrete batch for the C8 and C9 witnesses: the 10-byte mod name
`VideoMod12` and two videos, `Clip1` with 4 grids and `Longer` with 12. -/
def wJobs : List VideoJob :=
  [⟨[67, 108, 105, 112, 49], 4, 0, 10, [65]⟩,
   ⟨[76, 111, 110, 103, 101, 114], 12, 0, 10, [66]⟩]

def wModName : List ℕ := [86, 105, 100, 101, 111, 77, 111, 100, 49, 50]

/-- Witness for C8 at concrete inputs: two distinct short names pass, and
the 10-byte mod name `VideoMod12` is accepted. -/
theorem C8_name_validation_witness :
    (checkVideoNames (wJobs.map VideoJob.name) = Except.ok () ↔
      (∀ n ∈ wJobs.map VideoJob.name, n.length ≤ 10) ∧
        (wJobs.map VideoJob.name).Nodup) ∧
    ((∃ r, elongate wModName 88 10 true = Except.ok r) ↔ wModName.length ≤ 10) ∧
    ((checkVideoNames (wJobs.map VideoJob.name) ≠ Except.ok () ∨ 10 < wModName.length) →
      ∀ r, process_videos Mode.YES true wModName 512 [] [] wJobs ≠ some (Except.ok r)) :=
  C8_name_validation Mode.YES true wModName 512 [] [] wJobs

/-- The substitutions one qualifying video applies to the DriveIn buffer
(identifier padding plus the eight token replacements). -/
def applyDiSubs (modX modT modL di : List ℕ) (v : VideoJob) : Option (Except String (List ℕ)) :=
  pbind (toPR (elongate v.name 88 10 true)) fun vidX =>
  pbind (toPR (elongate v.name 32 10 false)) fun vidT =>
  applyVideoSubs di modX modT modL vidX vidT v.audio_name

/-- Folding the DriveIn substitutions over a list of videos only. -/
def diFold (modX modT modL : List ℕ) : List VideoJob → List ℕ → Option (Except String (List ℕ))
  | [], di => pret di
  | v :: rest, di =>
    pbind (applyDiSubs modX modT modL di v) fun di2 => diFold modX modT modL rest di2

theorem processVideosLoop_di (modX modT modL : List ℕ) :
    ∀ (videos : List VideoJob) (tv di : List ℕ) (flag : Bool) (tv2 di2 : List ℕ) (flag2 : Bool),
      processVideosLoop modX modT modL videos tv di flag = some (Except.ok (tv2, di2, flag2)) →
      flag2 = (flag || videos.any (fun v => decide (v.grid_amount ≤ 8))) ∧
      diFold modX modT modL (videos.filter (fun v => decide (v.grid_amount ≤ 8))) di =
        some (Except.ok di2) := by
  intro videos
  induction videos with
  | nil =>
    intro tv di flag tv2 di2 flag2 h
    simp only [processVideosLoop, pret, Option.some.injEq, Except.ok.injEq, Prod.mk.injEq] at h
    obtain ⟨h1, h2, h3⟩ := h
    subst h2
    subst h3
    exact ⟨by simp, by simp [diFold, pret]⟩
  | cons v rest ih =>
    intro tv di flag tv2 di2 flag2 h
    rw [processVideosLoop] at h
    cases hx : elongate v.name 88 10 true with
    | error e =>
      rw [hx] at h
      simp [pbind, toPR] at h
    | ok vidX =>
      rw [hx] at h
      cases ht : elongate v.name 32 10 false with
      | error e =>
        rw [ht] at h
        simp [pbind, toPR] at h
      | ok vidT =>
        rw [ht] at h
        simp only [pbind, toPR] at h
        cases hv : applyVideoSubs tv modX modT modL vidX vidT v.audio_name with
        | none =>
          rw [hv] at h
          simp [pbind] at h
        | some res =>
          rw [hv] at h
          cases res with
          | error e => simp [pbind] at h
          | ok tv3 =>
            simp only [pbind] at h
            by_cases hg : v.grid_amount ≤ 8
            · rw [if_pos hg] at h
              cases hd : applyVideoSubs di modX modT modL vidX vidT v.audio_name with
              | none =>
                rw [hd] at h
                simp [pbind] at h
              | some res2 =>
                rw [hd] at h
                cases res2 with
                | error e => simp [pbind] at h
                | ok di3 =>
                  simp only [pbind] at h
                  obtain ⟨hflag, hfold⟩ := ih tv3 di3 (flag || decide (v.grid_amount ≤ 8))
                    tv2 di2 flag2 h
                  constructor
                  · rw [hflag]
                    simp [List.any_cons, hg, Bool.or_assoc]
                  · rw [List.filter_cons, if_pos (by simpa using hg)]
                    rw [diFold]
                    have happ : applyDiSubs modX modT modL di v = some (Except.ok di3) := by
                      unfold applyDiSubs
                      rw [hx]
                      simp only [pbind, toPR]
                      rw [ht]
                      simp only [pbind]
                      exact hd
                    rw [happ]
                    simpa only [pbind] using hfold
            · rw [if_neg hg] at h
              obtain ⟨hflag, hfold⟩ := ih tv3 di (flag || decide (v.grid_amount ≤ 8))
                tv2 di2 flag2 h
              constructor
              · rw [hflag]
                simp [List.any_cons, hg, Bool.or_assoc]
              · rw [List.filter_cons, if_neg (by simpa using hg)]
                exact hfold

/-- C9: when a normal-mode run of `process_videos` succeeds, the DriveIn
flag is true exactly when some video has `grid_amount ≤ 8`; the file list
is the primary plugin file plus, exactly when the flag is true, the
DriveIn plugin file; the final DriveIn buffer equals the fold of the
identifier substitutions over only the qualifying videos (so a video
touches the DriveIn buffer iff `grid_amount ≤ 8`); and when no video
qualifies the DriveIn buffer is unchanged from the loaded template and no
DriveIn file is written. -/
theorem C9_drivein_conditional (mode : Mode) (uc : Bool) (mod_name : List ℕ) (size : ℕ)
    (tvT diT : List ℕ) (videos : List VideoJob)
    (tv2 di2 : List ℕ) (flag : Bool) (files : List (List ℕ × List ℕ))
    (h : process_videos mode uc mod_name size tvT diT videos =
      some (Except.ok (tv2, di2, flag, files))) :
    flag = videos.any (fun v => decide (v.grid_amount ≤ 8)) ∧
    files = (tvEspPath mod_name, tv2) ::
      (if flag then [(diEspPath mod_name, di2)] else []) ∧
    (∃ modX modT modL,
      elongate mod_name 88 10 true = Except.ok modX ∧
      elongate mod_name 32 10 true = Except.ok modL ∧
      elongate mod_name 32 10 false = Except.ok modT ∧
      diFold modX modT modL (videos.filter (fun v => decide (v.grid_amount ≤ 8))) diT =
        some (Except.ok di2)) ∧
    ((∀ v ∈ videos, ¬ v.grid_amount ≤ 8) →
      di2 = diT ∧ files = [(tvEspPath mod_name, tv2)]) := by
  unfold process_videos at h
  cases hc : capacityCheck mode uc videos.length with
  | error e =>
    rw [hc] at h
    simp [pbind, toPR] at h
  | ok u =>
    rw [hc] at h
    cases hn : checkVideoNames (videos.map VideoJob.name) with
    | error e =>
      rw [hn] at h
      simp [pbind, toPR] at h
    | ok u2 =>
      rw [hn] at h
      cases hf : frameSizeCheck size with
      | error e =>
        rw [hf] at h
        simp [pbind, toPR] at h
      | ok u3 =>
        rw [hf] at h
        cases hmX : elongate mod_name 88 10 true with
        | error e =>
          rw [hmX] at h
          simp [pbind, toPR] at h
        | ok modX =>
          rw [hmX] at h
          cases hmL : elongate mod_name 32 10 true with
          | error e =>
            rw [hmL] at h
            simp [pbind, toPR] at h
          | ok modL =>
            rw [hmL] at h
            cases hmT : elongate mod_name 32 10 false with
            | error e =>
              rw [hmT] at h
              simp [pbind, toPR] at h
            | ok modT =>
              rw [hmT] at h
              simp only [pbind, toPR] at h
              cases hq : processVideosLoop modX modT modL videos tvT diT false with
              | none =>
                rw [hq] at h
                simp [pbind] at h
              | some res =>
                rw [hq] at h
                cases res with
                | error e => simp [pbind] at h
                | ok triple =>
                  obtain ⟨a, b, c⟩ := triple
                  simp only [pbind, pret, Option.some.injEq, Except.ok.injEq,
                    Prod.mk.injEq] at h
                  obtain ⟨h1, h2, h3, h4⟩ := h
                  subst h1
                  subst h2
                  subst h3
                  obtain ⟨hflag, hfold⟩ := processVideosLoop_di modX modT modL videos
                    tvT diT false a b c hq
                  simp only [Bool.false_or] at hflag
                  refine ⟨hflag, h4.symm, ⟨modX, modT, modL, rfl, rfl, rfl, hfold⟩, ?_⟩
                  intro hnone
                  have hfilter : videos.filter (fun v => decide (v.grid_amount ≤ 8)) = [] := by
                    rw [List.filter_eq_nil_iff]
                    intro v hv
                    simpa using hnone v hv
                  rw [hfilter] at hfold
                  simp only [diFold, pret, Option.some.injEq, Except.ok.injEq] at hfold
                  have hflagf : c = false := by
                    rw [hflag]
                    rw [List.any_eq_false]
                    intro v hv
                    simpa using hnone v hv
                  subst hfold
                  refine ⟨rfl, ?_⟩
                  rw [← h4, hflagf]
                  simp

/-- Witness for C9: a concrete successful run on empty template buffers
with one qualifying video (4 grids) and one non-qualifying (12 grids): the
flag is true, and both plugin files are in the output. -/
theorem C9_drivein_conditional_witness :
    (true = wJobs.any (fun v => decide (v.grid_amount ≤ 8)) ∧
    [(tvEspPath wModName, []), (diEspPath wModName, [])] =
      ((tvEspPath wModName, ([] : List ℕ)) ::
        (if true then [(diEspPath wModName, ([] : List ℕ))] else [])) ∧
    (∃ modX modT modL,
      elongate wModName 88 10 true = Except.ok modX ∧
      elongate wModName 32 10 true = Except.ok modL ∧
      elongate wModName 32 10 false = Except.ok modT ∧
      diFold modX modT modL (wJobs.filter (fun v => decide (v.grid_amount ≤ 8))) [] =
        some (Except.ok [])) ∧
    ((∀ v ∈ wJobs, ¬ v.grid_amount ≤ 8) →
      ([] : List ℕ) = [] ∧
      [(tvEspPath wModName, ([] : List ℕ)), (diEspPath wModName, [])] =
        [(tvEspPath wModName, [])])) :=
  C9_drivein_conditional Mode.YES true wModName 512 [] [] wJobs [] [] true
    [(tvEspPath wModName, []), (diEspPath wModName, [])] (by rfl)
